import Mathlib

/-!
Verification development for the llmchat repository.

Shallow embedding of the stream reducer's answer merge
(`packages/common/hooks/agent-provider.tsx`, `handleThreadItemUpdate`),
the mode resolver (`packages/shared/config/chat-mode.ts`), the SSE
encoder (`sendMessage` in the completion route), the persistence
throttle of `runAgent`, and the conversation store's
`pruneBranchSelections`, together with theorems settling the frozen
claims about them.
-/

namespace LlmChat

/-! ## Answer merge (stream reducer)

Embeds the `answer`-event merge of `handleThreadItemUpdate` in
`packages/common/hooks/agent-provider.tsx` (lines 127-185).  Fields the
merge does not consume (`thinkingProcess`, the `...incomingRest` spread)
are not represented; the merge copies them through unchanged. -/

/-- The accumulated `answer` object of a thread item.  `text` is the
accumulated partial text, `finalText` the resolved snapshot; both are
optional because a fresh item has no answer yet. -/
structure Answer where
  text : Option String
  finalText : Option String
  status : Option String
deriving DecidableEq, Repr

/-- The `answer` payload of one incoming stream event. -/
structure IncomingAnswer where
  text : Option String
  finalText : Option String
  fullText : Option String
  status : Option String
deriving DecidableEq, Repr

/-- JavaScript `s.trim().length > 0`: the string has a non-whitespace
character. -/
def jsTrimNonempty (s : String) : Bool :=
  s.toList.any (fun c => !c.isWhitespace)

/-- `previousAnswer.text ?? ''` where `previousAnswer` is
`prevItem.answer ?? { text: '' }`. -/
def prevAnswerText (prev : Option Answer) : String :=
  ((prev.getD { text := some "", finalText := none, status := none }).text).getD ""

/-- The merge of one incoming `answer` event into the previous
accumulated answer, translated from `handleThreadItemUpdate`:
`hasFinalText`/`hasFullText` demand a non-whitespace string
(`trim().length > 0`); `resolvedFinalText` prefers incoming `finalText`,
then incoming `fullText`, then a non-empty previous `finalText`, then the
previous text; `resolvedText` is the snapshot when one is present and
otherwise the previous text with the incoming delta appended. -/
def mergeAnswer (prev : Option Answer) (incoming : IncomingAnswer) : Answer :=
  let previousAnswer : Answer :=
    prev.getD { text := some "", finalText := none, status := none }
  let previousText : String := previousAnswer.text.getD ""
  let hasFinalText : Bool := (incoming.finalText.map jsTrimNonempty).getD false
  let hasFullText : Bool := (incoming.fullText.map jsTrimNonempty).getD false
  let resolvedFinalText : String :=
    if hasFinalText then incoming.finalText.getD ""
    else if hasFullText then incoming.fullText.getD ""
    else match previousAnswer.finalText with
      | some s => if s.length > 0 then s else previousText
      | none => previousText
  let resolvedText : String :=
    if hasFinalText then incoming.finalText.getD ""
    else if hasFullText then incoming.fullText.getD ""
    else previousText ++ incoming.text.getD ""
  { text := some resolvedText
    finalText := some resolvedFinalText
    status := match incoming.status with
      | some s => some s
      | none => previousAnswer.status }

/-- Applying a sequence of `answer` events to one (initially fresh)
thread item: `threadItemMap` holds no entry at first, so the reducer
starts from no answer. -/
def applyAnswerEvents (events : List IncomingAnswer) : Option Answer :=
  events.foldl (fun acc ev => some (mergeAnswer acc ev)) none

/-- Event carrying only a text delta. -/
def deltaEvent (t : String) : IncomingAnswer :=
  { text := some t, finalText := none, fullText := none, status := none }

/-- The two-delta scenario of the claim: "Hel" then "lo". -/
def helloEvents : List IncomingAnswer := [deltaEvent "Hel", deltaEvent "lo"]

/-- A run where a second event supplies `finalText` as the empty string
together with a delta. -/
def emptyFinalEvents : List IncomingAnswer :=
  [deltaEvent "Hi",
   { text := some "x", finalText := some "", fullText := none, status := none }]

end LlmChat

namespace LlmChat

/-- C1 counterexample: after a first delta event accumulates "Hi", a
second `answer` event that supplies `finalText` (the empty string) and
the delta "x" does not have its snapshot replace the accumulated text:
the reducer appends, giving "Hix" rather than the supplied snapshot "".
So an event that supplies a `finalText` does not always replace the
accumulated text outright. -/
theorem answer_merge_snapshot_counterexample :
    (emptyFinalEvents.get? 1).bind IncomingAnswer.finalText = some "" ∧
    applyAnswerEvents emptyFinalEvents =
      some { text := some "Hix", finalText := some "Hi", status := none } ∧
    "Hix" ≠ "" := by
  refine ⟨by decide, by decide, by decide⟩

/-- C1 (amended): in the stream reducer's answer merge, an event whose
payload supplies a non-whitespace `finalText` (or, failing that, a
non-whitespace `fullText`) replaces the accumulated answer text outright
with that snapshot, and an event with no such snapshot appends its
`text` delta to the previously accumulated text; two sequential `answer`
events with deltas "Hel" then "lo" and no `finalText` yield accumulated
text "Hello". -/
theorem answer_merge_amended :
    (∀ (prev : Option Answer) (ev : IncomingAnswer) (s : String),
      ev.finalText = some s → jsTrimNonempty s = true →
      (mergeAnswer prev ev).text = some s) ∧
    (∀ (prev : Option Answer) (ev : IncomingAnswer) (s : String),
      (ev.finalText.map jsTrimNonempty).getD false = false →
      ev.fullText = some s → jsTrimNonempty s = true →
      (mergeAnswer prev ev).text = some s) ∧
    (∀ (prev : Option Answer) (ev : IncomingAnswer),
      (ev.finalText.map jsTrimNonempty).getD false = false →
      (ev.fullText.map jsTrimNonempty).getD false = false →
      (mergeAnswer prev ev).text = some (prevAnswerText prev ++ ev.text.getD "")) ∧
    (applyAnswerEvents helloEvents).bind Answer.text = some "Hello" := by
  refine ⟨?_, ?_, ?_, by decide⟩
  · intro prev ev s h hs
    simp [mergeAnswer, h, hs]
  · intro prev ev s hf h hs
    simp [mergeAnswer, hf, h, hs]
  · intro prev ev hf hff
    simp only [mergeAnswer, prevAnswerText, hf, hff]
    simp

/-- Witness for `answer_merge_amended` at concrete inputs. -/
theorem answer_merge_amended_witness :
    (mergeAnswer (some { text := some "old", finalText := none, status := none })
      { text := none, finalText := some "snap", fullText := none, status := none }).text
      = some "snap" ∧
    (mergeAnswer (some { text := some "old", finalText := none, status := none })
      { text := none, finalText := none, fullText := some "full", status := none }).text
      = some "full" ∧
    (mergeAnswer (some { text := some "old", finalText := none, status := none })
      (deltaEvent "+d")).text = some "old+d" := by
  refine ⟨answer_merge_amended.1 _ _ "snap" rfl (by decide),
    answer_merge_amended.2.1 _ _ "full" (by decide) rfl (by decide), ?_⟩
  have h := answer_merge_amended.2.2.1
    (some { text := some "old", finalText := none, status := none })
    (deltaEvent "+d") (by decide) (by decide)
  simpa [prevAnswerText, deltaEvent] using h

/-- C10: a whitespace-only (or empty) incoming `finalText`/`fullText`
is not an authoritative snapshot: the accumulated text follows the
delta-append rule, and the stored `finalText` falls back to the previous
`finalText` when that is non-empty, else to the previous text. -/
theorem blank_final_text_not_authoritative
    (prev : Option Answer) (ev : IncomingAnswer)
    (hf : (ev.finalText.map jsTrimNonempty).getD false = false)
    (hff : (ev.fullText.map jsTrimNonempty).getD false = false) :
    (mergeAnswer prev ev).text = some (prevAnswerText prev ++ ev.text.getD "") ∧
    (mergeAnswer prev ev).finalText =
      some (match (prev.getD { text := some "", finalText := none, status := none }).finalText with
        | some s => if s.length > 0 then s else prevAnswerText prev
        | none => prevAnswerText prev) := by
  constructor
  · simp only [mergeAnswer, prevAnswerText, hf, hff]
    simp
  · simp only [mergeAnswer, prevAnswerText, hf, hff]
    simp

/-- Witness for `blank_final_text_not_authoritative`: a whitespace-only
`finalText` with a delta appends and keeps the previous text as
`finalText`. -/
theorem blank_final_text_not_authoritative_witness :
    (mergeAnswer (some { text := some "Hi", finalText := some "", status := none })
      { text := some "x", finalText := some " ", fullText := none, status := none }).text
        = some "Hix" ∧
    (mergeAnswer (some { text := some "Hi", finalText := some "", status := none })
      { text := some "x", finalText := some " ", fullText := none, status := none }).finalText
        = some "Hi" := by
  have h := blank_final_text_not_authoritative
    (some { text := some "Hi", finalText := some "", status := none })
    { text := some "x", finalText := some " ", fullText := none, status := none }
    (by decide) (by decide)
  exact ⟨by simpa using h.1, by simpa [prevAnswerText] using h.2⟩

end LlmChat

namespace LlmChat

/-! ## Mode resolver (`packages/shared/config/chat-mode.ts`)

String utilities embed the JavaScript operations the resolver uses:
`toLowerCase`, `String.prototype.includes`, `split(/\s+/).length`, and
word-boundary regular-expression tests of the form found in the source
(each alternative is matched with a JavaScript `\b` boundary on both
sides: a transition between a word character `[A-Za-z0-9_]` and a
non-word character or string edge). -/

/-- JavaScript `toLowerCase` (character-wise, which agrees with the
source's ASCII usage). -/
def jsToLower (s : String) : String := String.mk (s.toList.map Char.toLower)

/-- Contiguous-substring test used to embed
`String.prototype.includes`. -/
def infixOf (needle : List Char) : List Char → Bool
  | [] => needle.isEmpty
  | c :: t => needle.isPrefixOf (c :: t) || infixOf needle t

/-- `hay.includes(needle)`. -/
def strIncludes (hay needle : String) : Bool := infixOf needle.toList hay.toList

/-- JavaScript regular-expression word character `\w`. -/
def isWordChar (c : Char) : Bool := c.isAlphanum || c = '_'

/-- The word-character status of a position, with the string edge
counting as a non-word character. -/
def optWordChar : Option Char → Bool
  | none => false
  | some c => isWordChar c

/-- A `\b` boundary holds between two positions when exactly one of them
is a word character. -/
def boundaryBetween (a b : Option Char) : Bool := optWordChar a != optWordChar b

/-- Does `needle` occur at the head of `hay` (whose predecessor
character is `prev`) with a `\b` boundary on both sides? -/
def wordAt (prev : Option Char) (needle hay : List Char) : Bool :=
  match needle with
  | [] => false
  | h :: _ =>
    needle.isPrefixOf hay && boundaryBetween prev (some h) &&
      boundaryBetween needle.getLast? (hay.drop needle.length).head?

/-- Scan of `hay` for a boundary-delimited occurrence of any of
`needles`, threading the previous character for the left boundary. -/
def wordScan (needles : List (List Char)) (prev : Option Char) (hay : List Char) : Bool :=
  needles.any (fun n => wordAt prev n hay) ||
    match hay with
    | [] => false
    | c :: t => wordScan needles (some c) t

/-- `new RegExp("\\b(" + alts.join("|") + ")\\b", "i").test(q)`.  The
case-insensitive flag is embedded by lowering both sides; the year
regular expression in the source has no `i` flag, but lowering digits is
the identity, so the same embedding serves it. -/
def regexWordTest (alts : List String) (q : String) : Bool :=
  wordScan (alts.map (fun a => a.toList.map Char.toLower)) none (q.toList.map Char.toLower)

/-- Number of maximal whitespace runs, tracking whether the previous
character was whitespace. -/
def wsRunsAux : Bool → List Char → Nat
  | _, [] => 0
  | inWs, c :: t =>
    if c.isWhitespace then (if inWs then 0 else 1) + wsRunsAux true t
    else wsRunsAux false t

/-- `query.split(/\s+/).length`: one more than the number of separator
runs (JavaScript keeps the empty leading/trailing pieces). -/
def splitWsCount (q : String) : Nat := wsRunsAux false q.toList + 1

/-- Number of maximal non-whitespace runs. -/
def nonWsRuns : Bool → List Char → Nat
  | _, [] => 0
  | inWord, c :: t =>
    if c.isWhitespace then nonWsRuns false t
    else (if inWord then 0 else 1) + nonWsRuns true t

/-- `query.trim().split(/\s+/).filter(Boolean).length`. -/
def wordCount (q : String) : Nat := nonWsRuns false q.toList

/-- The `ChatMode` enumeration of `packages/shared/config/chat-mode.ts`. -/
inductive ChatMode where
  | Auto | Pro | Deep
  | GEMINI_2_5_PRO | GEMINI_2_5_FLASH
  | GLM_4_5_AIR | DEEPSEEK_CHAT_V3_1 | DEEPSEEK_R1 | LONGCAT_FLASH_CHAT
  | GPT_OSS_20B | DOLPHIN_MISTRAL_24B_VENICE
  | DOCUMENT_QA | IMAGE_GENERATION
deriving DecidableEq, Repr

/-- Alternatives of the image regular expression in `selectModelForQuery`. -/
def imageWords : List String :=
  ["image", "photo", "picture", "screenshot", "diagram", "chart", "graph", "visual"]

/-- The `codeIndicators` keyword list. -/
def codeIndicators : List String :=
  ["code", "function", "class", "algorithm", "debug", "error", "bug", "implement",
   "refactor", "optimize", "python", "javascript", "typescript", "java", "c++",
   "rust", "go", "sql", "api", "regex", "git"]

/-- The `mathIndicators` keyword list. -/
def mathIndicators : List String :=
  ["calculate", "solve", "equation", "math", "proof", "theorem", "reasoning",
   "logic", "derive", "compute", "algorithm complexity"]

/-- Alternatives of the math regular expression. -/
def mathRegexWords : List String := ["prove", "theorem", "∫", "∑", "∏", "∂"]

/-- The `newsIndicators` keyword list. -/
def newsIndicators : List String :=
  ["news", "latest", "recent", "today", "yesterday", "current", "breaking", "trending"]

/-- Alternatives of the research regular expression. -/
def researchWords : List String :=
  ["research", "analyze", "compare", "comprehensive", "detailed", "explain"]

/-- The `creativeIndicators` keyword list. -/
def creativeIndicators : List String :=
  ["write", "story", "poem", "creative", "fiction", "essay", "article", "blog",
   "script", "dialogue", "character"]

/-- Alternatives of the translation regular expression. -/
def translateWords : List String := ["translate", "translation", "language"]

/-- Expansion of the `202[0-9]` character class of the year regular
expression. -/
def decadeYears : List String :=
  ["2020", "2021", "2022", "2023", "2024", "2025", "2026", "2027", "2028", "2029"]

/-- `codeIndicators.filter(word => lowerQuery.includes(word)).length`. -/
def codeScore (lowerQuery : String) : Nat :=
  (codeIndicators.filter (fun w => strIncludes lowerQuery w)).length

/-- Math keyword score. -/
def mathScore (lowerQuery : String) : Nat :=
  (mathIndicators.filter (fun w => strIncludes lowerQuery w)).length

/-- News keyword score. -/
def newsScore (lowerQuery : String) : Nat :=
  (newsIndicators.filter (fun w => strIncludes lowerQuery w)).length

/-- Creative keyword score. -/
def creativeScore (lowerQuery : String) : Nat :=
  (creativeIndicators.filter (fun w => strIncludes lowerQuery w)).length

/-- `query.match(new RegExp("\\b(year|year-1|202[0-9])\\b", "g")) !== null`
where `year` is `new Date().getFullYear()`, passed in explicitly; this is
the one place the resolver reads the clock. -/
def recentYearTest (currentYear : Nat) (query : String) : Bool :=
  regexWordTest (toString currentYear :: toString (currentYear - 1) :: decadeYears) query

/-- `selectModelForQuery` translated branch by branch from
`packages/shared/config/chat-mode.ts` (lines 175-289), with the current
calendar year made an explicit argument. -/
def selectModelForQuery (currentYear : Nat) (query : String) (hasImage : Bool) : ChatMode :=
  let lowerQuery := jsToLower query
  let length := splitWsCount query
  if hasImage || regexWordTest imageWords query then ChatMode.GEMINI_2_5_FLASH
  else if decide (2 ≤ codeScore lowerQuery) then ChatMode.DEEPSEEK_CHAT_V3_1
  else if decide (2 ≤ mathScore lowerQuery) || regexWordTest mathRegexWords query then
    ChatMode.DEEPSEEK_R1
  else if recentYearTest currentYear query || decide (2 ≤ newsScore lowerQuery) then
    ChatMode.LONGCAT_FLASH_CHAT
  else if decide (50 < length) || regexWordTest researchWords query then
    ChatMode.GEMINI_2_5_PRO
  else if decide (2 ≤ creativeScore lowerQuery) then ChatMode.GLM_4_5_AIR
  else if regexWordTest translateWords query && decide (length < 30) then
    ChatMode.GEMINI_2_5_FLASH
  else if decide (length < 20) then ChatMode.GEMINI_2_5_FLASH
  else ChatMode.DEEPSEEK_CHAT_V3_1

/-- `getModelSelectionReason` from `chat-mode.ts` (lines 294-325). -/
def getModelSelectionReason (query : String) (selectedModel : ChatMode) : String :=
  let lowerQuery := jsToLower query
  match selectedModel with
  | ChatMode.GEMINI_2_5_FLASH =>
    if regexWordTest ["image", "photo", "picture"] query then
      "Multimodal capabilities for image analysis"
    else "Fast response for quick queries"
  | ChatMode.GEMINI_2_5_PRO => "Deep research and comprehensive analysis"
  | ChatMode.DEEPSEEK_CHAT_V3_1 =>
    if strIncludes lowerQuery "code" then "Optimized for coding tasks"
    else "Balanced performance for general queries"
  | ChatMode.DEEPSEEK_R1 => "Advanced reasoning with chain-of-thought"
  | ChatMode.LONGCAT_FLASH_CHAT => "Real-time information with internet access"
  | ChatMode.GLM_4_5_AIR => "Creative content generation"
  | _ => "General-purpose model"

/-- `selectOpenRouterFallback` from `chat-mode.ts` (lines 327-413); it
also reads the current year for its news branch. -/
def selectOpenRouterFallback (currentYear : Nat) (query : String) : ChatMode :=
  let lowerQuery := jsToLower query
  if decide (2 ≤ codeScore lowerQuery) then ChatMode.DEEPSEEK_CHAT_V3_1
  else if decide (2 ≤ mathScore lowerQuery) || regexWordTest mathRegexWords query then
    ChatMode.DEEPSEEK_R1
  else if recentYearTest currentYear query || decide (2 ≤ newsScore lowerQuery) then
    ChatMode.LONGCAT_FLASH_CHAT
  else if decide (2 ≤ creativeScore lowerQuery) then ChatMode.GLM_4_5_AIR
  else ChatMode.DEEPSEEK_CHAT_V3_1

/-- `selectGeminiFallback` from `chat-mode.ts` (lines 415-422). -/
def selectGeminiFallback (query : String) (hasImage : Bool) : ChatMode :=
  if hasImage then ChatMode.GEMINI_2_5_FLASH
  else if decide (50 < wordCount query) then ChatMode.GEMINI_2_5_PRO
  else ChatMode.GEMINI_2_5_FLASH

/-- Helper: a query whose lowercase form reaches code score at least two
and does not match the image regular expression selects the coding mode
(the image branch is tested first in the source, the code branch
second). -/
theorem selectModel_code_branch (y : Nat) (q : String)
    (himg : regexWordTest imageWords q = false)
    (hcode : 2 ≤ codeScore (jsToLower q)) :
    selectModelForQuery y q false = ChatMode.DEEPSEEK_CHAT_V3_1 := by
  simp [selectModelForQuery, himg, hcode]

/-- Helper: a needle already among the remaining alternatives does not
change the word-boundary scan. -/
theorem wordScan_cons_of_mem (n : List Char) (ns : List (List Char)) (hmem : n ∈ ns) :
    ∀ (prev : Option Char) (hay : List Char),
      wordScan (n :: ns) prev hay = wordScan ns prev hay := by
  intro prev hay
  induction hay generalizing prev with
  | nil =>
    simp only [wordScan, List.any_cons]
    cases hwa : wordAt prev n [] with
    | true =>
      have : ns.any (fun m => wordAt prev m []) = true :=
        List.any_eq_true.mpr ⟨n, hmem, hwa⟩
      simp [this]
    | false => simp
  | cons c t ih =>
    simp only [wordScan, List.any_cons]
    cases hwa : wordAt prev n (c :: t) with
    | true =>
      have : ns.any (fun m => wordAt prev m (c :: t)) = true :=
        List.any_eq_true.mpr ⟨n, hmem, hwa⟩
      simp [this]
    | false => simp [ih]

/-- Helper: for a current year between 2021 and 2029 the two explicit
year alternatives are subsumed by the `202[0-9]` class, so the year test
does not depend on which such year it is. -/
theorem recentYear_decade (q : String) (y : Nat) (h1 : 2021 ≤ y) (h2 : y ≤ 2029) :
    recentYearTest y q = regexWordTest decadeYears q := by
  interval_cases y <;>
    · show regexWordTest _ q = regexWordTest decadeYears q
      simp only [regexWordTest, decadeYears, List.map_cons]
      rw [wordScan_cons_of_mem _ _ (by decide), wordScan_cons_of_mem _ _ (by decide)]

/-- C7 counterexample: the query "debug code image" contains the
distinct code keywords "code", "debug" (and "bug"), carries no image
attachment, yet `selectModelForQuery` returns Gemini 2.5 Flash, not the
coding mode, because the image-keyword test runs before the code
branch. -/
theorem selectModel_code_keywords_counterexample :
    2 ≤ codeScore (jsToLower "debug code image") ∧
    selectModelForQuery 2026 "debug code image" false = ChatMode.GEMINI_2_5_FLASH ∧
    ChatMode.GEMINI_2_5_FLASH ≠ ChatMode.DEEPSEEK_CHAT_V3_1 := by
  refine ⟨by decide, by decide, by decide⟩

/-- C7 (amended): for every query containing at least two distinct
code-category keywords, with no image attachment and not matching the
image-keyword pattern, `selectModelForQuery` returns the coding mode
(DeepSeek Chat v3.1), for any current year. -/
theorem selectModel_code_keywords_amended (y : Nat) (q : String)
    (himg : regexWordTest imageWords q = false)
    (hcode : 2 ≤ codeScore (jsToLower q)) :
    selectModelForQuery y q false = ChatMode.DEEPSEEK_CHAT_V3_1 :=
  selectModel_code_branch y q himg hcode

/-- Witness for `selectModel_code_keywords_amended` on the query
"fix this bug in my python function". -/
theorem selectModel_code_keywords_amended_witness :
    selectModelForQuery 2026 "fix this bug in my python function" false =
      ChatMode.DEEPSEEK_CHAT_V3_1 :=
  selectModel_code_keywords_amended 2026 "fix this bug in my python function"
    (by decide) (by decide)

/-- C8 counterexample: for the query "fix this bug in my python
function" the resolver does return the coding mode, but
`getModelSelectionReason` returns the generic reason, not a
coding-specific one, because the query does not contain the substring
"code". -/
theorem selection_reason_counterexample :
    selectModelForQuery 2026 "fix this bug in my python function" false =
      ChatMode.DEEPSEEK_CHAT_V3_1 ∧
    getModelSelectionReason "fix this bug in my python function"
      ChatMode.DEEPSEEK_CHAT_V3_1 = "Balanced performance for general queries" ∧
    "Balanced performance for general queries" ≠ "Optimized for coding tasks" := by
  refine ⟨by decide, by decide, by decide⟩

/-- C8 (amended): for the query "fix this bug in my python function"
with no image, `selectModelForQuery` returns the coding mode for any
current year, and `getModelSelectionReason` returns the generic
"Balanced performance for general queries"; for every query, the
coding-specific reason is produced exactly when the lowercased query
contains the substring "code". -/
theorem selection_reason_amended :
    (∀ y, selectModelForQuery y "fix this bug in my python function" false =
      ChatMode.DEEPSEEK_CHAT_V3_1) ∧
    getModelSelectionReason "fix this bug in my python function"
      ChatMode.DEEPSEEK_CHAT_V3_1 = "Balanced performance for general queries" ∧
    (∀ q, getModelSelectionReason q ChatMode.DEEPSEEK_CHAT_V3_1 =
        "Optimized for coding tasks" ↔ strIncludes (jsToLower q) "code" = true) := by
  refine ⟨?_, by decide, ?_⟩
  · intro y
    exact selectModel_code_branch y _ (by decide) (by decide)
  · intro q
    cases h : strIncludes (jsToLower q) "code" with
    | true => simp [getModelSelectionReason, h]
    | false =>
      simp only [getModelSelectionReason, h, Bool.false_eq_true, if_false]
      constructor
      · intro hc
        exact absurd hc (by decide)
      · intro hc
        exact absurd hc (by decide)

/-- Witness for `selection_reason_amended` at concrete inputs: the
scenario query, a query with "code" getting the coding reason, and a
query without "code" not getting it. -/
theorem selection_reason_amended_witness :
    selectModelForQuery 2026 "fix this bug in my python function" false =
      ChatMode.DEEPSEEK_CHAT_V3_1 ∧
    getModelSelectionReason "use this code" ChatMode.DEEPSEEK_CHAT_V3_1 =
      "Optimized for coding tasks" ∧
    getModelSelectionReason "fix my script" ChatMode.DEEPSEEK_CHAT_V3_1 ≠
      "Optimized for coding tasks" :=
  ⟨selection_reason_amended.1 2026,
   (selection_reason_amended.2.2 "use this code").mpr (by decide),
   fun hc => absurd ((selection_reason_amended.2.2 "fix my script").mp hc) (by decide)⟩

/-- C9 counterexample: `selectModelForQuery` reads the current calendar
year; the query "2031" selects the news mode when the current year is
2031 but the short-query default when it is 2026, so the result is not a
function of (query, hasImage) alone. -/
theorem selectModel_year_dependence_counterexample :
    selectModelForQuery 2031 "2031" false = ChatMode.LONGCAT_FLASH_CHAT ∧
    selectModelForQuery 2026 "2031" false = ChatMode.GEMINI_2_5_FLASH ∧
    selectModelForQuery 2031 "2031" false ≠ selectModelForQuery 2026 "2031" false := by
  refine ⟨by decide, by decide, by decide⟩

/-- C9 (amended): `selectModelForQuery` is a pure function of (query,
hasImage, current year); moreover, for current years between 2021 and
2029 — where the explicit year alternatives are subsumed by the
`202[0-9]` class — any two invocations with the same (query, hasImage)
agree regardless of which such year the clock reads. -/
theorem selectModel_year_stable_amended (q : String) (h : Bool) (y₁ y₂ : Nat)
    (ha : 2021 ≤ y₁) (hb : y₁ ≤ 2029) (hc : 2021 ≤ y₂) (hd : y₂ ≤ 2029) :
    selectModelForQuery y₁ q h = selectModelForQuery y₂ q h := by
  unfold selectModelForQuery
  rw [recentYear_decade q y₁ ha hb, recentYear_decade q y₂ hc hd]

/-- Witness for `selectModel_year_stable_amended` at 2024 vs 2027. -/
theorem selectModel_year_stable_amended_witness :
    selectModelForQuery 2024 "hello" false = selectModelForQuery 2027 "hello" false :=
  selectModel_year_stable_amended "hello" false 2024 2027
    (by decide) (by decide) (by decide) (by decide)

end LlmChat

namespace LlmChat

/-! ## Providers and availability fallback

Embeds `packages/ai/models.ts` (the `models` catalog and
`getModelFromChatMode`), `packages/ai/providers.ts`
(`getProviderApiKey`, collapsed to key presence in an explicit
environment record), and `ensureProviderAvailability` from the
completion route. -/

/-- The two providers of `packages/ai/providers.ts`. -/
inductive Provider where
  | google
  | openrouter
deriving DecidableEq, Repr

/-- The `ModelEnum` of `packages/ai/models.ts`. -/
inductive ModelEnum where
  | GEMINI_2_5_PRO | GEMINI_2_5_FLASH | GEMINI_2_5_FLASH_IMAGE
  | GLM_4_5_AIR | DEEPSEEK_CHAT_V3_1 | DEEPSEEK_R1 | LONGCAT_FLASH_CHAT
  | GPT_OSS_20B | DOLPHIN_MISTRAL_24B_VENICE
deriving DecidableEq, Repr

/-- The projection of a `models` catalog entry used by provider
resolution. -/
structure ModelRec where
  id : ModelEnum
  provider : Provider
deriving DecidableEq, Repr

/-- The `models` catalog in source order, restricted to the fields
provider resolution reads. -/
def models : List ModelRec :=
  [⟨.GEMINI_2_5_FLASH, .google⟩, ⟨.GEMINI_2_5_FLASH_IMAGE, .google⟩,
   ⟨.GEMINI_2_5_PRO, .google⟩, ⟨.GLM_4_5_AIR, .openrouter⟩,
   ⟨.DEEPSEEK_CHAT_V3_1, .openrouter⟩, ⟨.DEEPSEEK_R1, .openrouter⟩,
   ⟨.LONGCAT_FLASH_CHAT, .openrouter⟩, ⟨.GPT_OSS_20B, .openrouter⟩,
   ⟨.DOLPHIN_MISTRAL_24B_VENICE, .openrouter⟩]

/-- `getModelFromChatMode` from `packages/ai/models.ts`: unknown modes
fall through to Gemini 2.5 Flash. -/
def getModelFromChatMode : ChatMode → ModelEnum
  | ChatMode.GEMINI_2_5_PRO => .GEMINI_2_5_PRO
  | ChatMode.GEMINI_2_5_FLASH => .GEMINI_2_5_FLASH
  | ChatMode.GLM_4_5_AIR => .GLM_4_5_AIR
  | ChatMode.DEEPSEEK_CHAT_V3_1 => .DEEPSEEK_CHAT_V3_1
  | ChatMode.DEEPSEEK_R1 => .DEEPSEEK_R1
  | ChatMode.LONGCAT_FLASH_CHAT => .LONGCAT_FLASH_CHAT
  | ChatMode.GPT_OSS_20B => .GPT_OSS_20B
  | ChatMode.DOLPHIN_MISTRAL_24B_VENICE => .DOLPHIN_MISTRAL_24B_VENICE
  | ChatMode.IMAGE_GENERATION => .GEMINI_2_5_FLASH_IMAGE
  | _ => .GEMINI_2_5_FLASH

/-- `getProviderForMode` from the completion route: look the mode's
model up in the catalog and take its provider. -/
def getProviderForMode (mode : ChatMode) : Option Provider :=
  (models.find? (fun m => m.id == getModelFromChatMode mode)).map ModelRec.provider

/-- Key-presence state of the process: `getProviderApiKey` in
`packages/ai/providers.ts` reads `process.env`/`self`/`window`; only
whether it returns a non-empty string matters here. -/
structure Env where
  googleKey : Bool
  openRouterKey : Bool
deriving DecidableEq, Repr

/-- `Boolean(getProviderApiKey(provider))`. -/
def getProviderApiKey (env : Env) : Provider → Bool
  | .google => env.googleKey
  | .openrouter => env.openRouterKey

/-- The `{ mode, changed, message? }` result of
`ensureProviderAvailability`. -/
structure FallbackResult where
  mode : ChatMode
  changed : Bool
  message : Option String
deriving DecidableEq, Repr

/-- `ensureProviderAvailability` from the completion route (thrown
`Error`s become `Except.error` carrying the message). -/
def ensureProviderAvailability (env : Env) (currentYear : Nat) (mode : ChatMode)
    (query : String) (hasImageAttachment : Bool) : Except String FallbackResult :=
  match getProviderForMode mode with
  | none => .ok ⟨mode, false, none⟩
  | some provider =>
    if getProviderApiKey env provider then .ok ⟨mode, false, none⟩
    else
      match provider with
      | .google =>
        if hasImageAttachment then
          .error ("Image questions in Auto mode require a configured GEMINI_API_KEY. " ++
            "Please add your Gemini key or remove the image.")
        else
          let fallbackMode := selectOpenRouterFallback currentYear query
          let fallbackProvider := getProviderForMode fallbackMode
          if (fallbackProvider.map (getProviderApiKey env)).getD false then
            .ok ⟨fallbackMode, true,
              some "Fallback to OpenRouter because Gemini API key is missing"⟩
          else
            .error ("Auto mode needs at least one provider configured. Please set " ++
              "OPENROUTER_API_KEY to enable OpenRouter models or add a personal key " ++
              "in Settings → API Keys.")
      | .openrouter =>
        let fallbackMode := selectGeminiFallback query hasImageAttachment
        let fallbackProvider := getProviderForMode fallbackMode
        if (fallbackProvider.map (getProviderApiKey env)).getD false then
          .ok ⟨fallbackMode, true,
            some "Fallback to Gemini because OpenRouter API key is missing"⟩
        else
          .error ("Auto mode needs a Gemini API key when OpenRouter is unavailable. " ++
            "Please set GEMINI_API_KEY or provide a personal key in Settings → API Keys.")

/-- Helper: the OpenRouter fallback selector only ever returns
OpenRouter-backed modes. -/
theorem openRouterFallback_provider (y : Nat) (q : String) :
    getProviderForMode (selectOpenRouterFallback y q) = some Provider.openrouter := by
  unfold selectOpenRouterFallback
  dsimp only
  split
  · rfl
  · split
    · rfl
    · split
      · rfl
      · split <;> rfl

/-- Helper: the Gemini fallback selector only ever returns
Google-backed modes. -/
theorem geminiFallback_provider (q : String) (img : Bool) :
    getProviderForMode (selectGeminiFallback q img) = some Provider.google := by
  unfold selectGeminiFallback
  split
  · rfl
  · split <;> rfl

/-- Helper: every chat mode resolves to some provider (the model lookup
falls back to Gemini 2.5 Flash for unknown modes). -/
theorem provider_total (mode : ChatMode) : ∃ p, getProviderForMode mode = some p := by
  cases mode <;> exact ⟨_, rfl⟩

/-- C6: `ensureProviderAvailability` returns the mode unchanged when the
backing provider has a usable credential; substitutes a fallback mode
from the other provider (with `changed` and a substitution message) when
the credential is missing but the other provider's is present; raises an
error when neither provider has usable credentials; and raises an error
when an image attachment is present and the Gemini credential serving
the image modality is missing. -/
theorem ensureProvider_spec (env : Env) (y : Nat) (mode : ChatMode) (q : String) (img : Bool) :
    (∀ p, getProviderForMode mode = some p → getProviderApiKey env p = true →
      ensureProviderAvailability env y mode q img = .ok ⟨mode, false, none⟩) ∧
    (getProviderForMode mode = some Provider.google → env.googleKey = false → img = false →
      env.openRouterKey = true →
      ensureProviderAvailability env y mode q img =
        .ok ⟨selectOpenRouterFallback y q, true,
          some "Fallback to OpenRouter because Gemini API key is missing"⟩ ∧
        getProviderForMode (selectOpenRouterFallback y q) = some Provider.openrouter) ∧
    (getProviderForMode mode = some Provider.openrouter → env.openRouterKey = false →
      env.googleKey = true →
      ensureProviderAvailability env y mode q img =
        .ok ⟨selectGeminiFallback q img, true,
          some "Fallback to Gemini because OpenRouter API key is missing"⟩ ∧
        getProviderForMode (selectGeminiFallback q img) = some Provider.google) ∧
    (env.googleKey = false → env.openRouterKey = false →
      ∃ e, ensureProviderAvailability env y mode q img = .error e) ∧
    (getProviderForMode mode = some Provider.google → env.googleKey = false → img = true →
      ensureProviderAvailability env y mode q img =
        .error ("Image questions in Auto mode require a configured GEMINI_API_KEY. " ++
          "Please add your Gemini key or remove the image.")) := by
  refine ⟨?_, ?_, ?_, ?_, ?_⟩
  · intro p hp hkey
    simp [ensureProviderAvailability, hp, hkey]
  · intro hp hg himg hor
    refine ⟨?_, openRouterFallback_provider y q⟩
    simp [ensureProviderAvailability, hp, getProviderApiKey, hg, himg,
      openRouterFallback_provider, hor]
  · intro hp hor hg
    refine ⟨?_, geminiFallback_provider q img⟩
    simp [ensureProviderAvailability, hp, getProviderApiKey, hor,
      geminiFallback_provider, hg]
  · intro hg hor
    obtain ⟨p, hp⟩ := provider_total mode
    cases p with
    | google =>
      cases himg : img with
      | true =>
        exact ⟨"Image questions in Auto mode require a configured GEMINI_API_KEY. " ++
          "Please add your Gemini key or remove the image.",
          by simp [ensureProviderAvailability, hp, getProviderApiKey, hg]⟩
      | false =>
        exact ⟨"Auto mode needs at least one provider configured. Please set " ++
          "OPENROUTER_API_KEY to enable OpenRouter models or add a personal key " ++
          "in Settings → API Keys.",
          by simp [ensureProviderAvailability, hp, getProviderApiKey, hg,
            openRouterFallback_provider, hor]⟩
    | openrouter =>
      exact ⟨"Auto mode needs a Gemini API key when OpenRouter is unavailable. " ++
        "Please set GEMINI_API_KEY or provide a personal key in Settings → API Keys.",
        by simp [ensureProviderAvailability, hp, getProviderApiKey, hg,
          geminiFallback_provider, hor]⟩
  · intro hp hg himg
    simp [ensureProviderAvailability, hp, getProviderApiKey, hg, himg]

/-- Witness for `ensureProvider_spec`: a Google-backed mode with only a
Gemini key is kept; with only an OpenRouter key it falls back; with no
keys it errors. -/
theorem ensureProvider_spec_witness :
    ensureProviderAvailability ⟨true, false⟩ 2026 ChatMode.GEMINI_2_5_FLASH "hi" false =
      .ok ⟨ChatMode.GEMINI_2_5_FLASH, false, none⟩ ∧
    (ensureProviderAvailability ⟨false, true⟩ 2026 ChatMode.GEMINI_2_5_FLASH "hi" false =
      .ok ⟨selectOpenRouterFallback 2026 "hi", true,
        some "Fallback to OpenRouter because Gemini API key is missing"⟩ ∧
      getProviderForMode (selectOpenRouterFallback 2026 "hi") = some Provider.openrouter) ∧
    (∃ e, ensureProviderAvailability ⟨false, false⟩ 2026 ChatMode.GEMINI_2_5_FLASH "hi" false =
      .error e) :=
  ⟨(ensureProvider_spec ⟨true, false⟩ 2026 ChatMode.GEMINI_2_5_FLASH "hi" false).1
      Provider.google rfl rfl,
   (ensureProvider_spec ⟨false, true⟩ 2026 ChatMode.GEMINI_2_5_FLASH "hi" false).2.1
      rfl rfl rfl rfl,
   (ensureProvider_spec ⟨false, false⟩ 2026 ChatMode.GEMINI_2_5_FLASH "hi" false).2.2.2.1
      rfl rfl⟩

end LlmChat

namespace LlmChat

/-! ## Stream encoder (`sendMessage` in the completion route)

The `ReadableStream` controller is embedded as an explicit state: the
`__closed` guard flag the source attaches to the controller, a validity
bit (an invalid controller makes `enqueue` throw the "invalid state"
`TypeError` the source catches), the chunks enqueued so far, and the
log lines emitted through `logger.error`. -/

/-- The projection of the event payload `sendMessage` consumes: its
`type`, optional free-form `content`, the three identifiers, and a flag
saying whether sanitize-plus-stringify succeeds on it. -/
structure EncPayload where
  type : String
  content : Option String
  threadId : String
  threadItemId : String
  parentThreadItemId : Option String
  serializable : Bool
deriving DecidableEq, Repr

/-- `content.replace(/\\n/g, '\n')`: left-to-right, non-overlapping
replacement of the two-character sequence backslash-n by a newline. -/
def normalizeChars : List Char → List Char
  | [] => []
  | '\\' :: 'n' :: rest => '\n' :: normalizeChars rest
  | c :: rest => c :: normalizeChars rest

/-- `normalizeMarkdownContent` from the completion route. -/
def normalizeMarkdownContent (s : String) : String := String.mk (normalizeChars s.toList)

/-- The mutation `payload.content = normalizeMarkdownContent(payload.content)`
guarded by `payload.content && typeof payload.content === 'string'`
(a truthy string is a non-empty one). -/
def normalizeContentField (p : EncPayload) : EncPayload :=
  match p.content with
  | some c => if c ≠ "" then { p with content := some (normalizeMarkdownContent c) } else p
  | none => p

/-- Modelled from the spec: `JSON.stringify(sanitizePayloadForJSON(payload))`
for a payload on which sanitization succeeds.  `sanitizePayloadForJSON`
lives in the API route's utils module, which is not among the sources;
per the spec it reduces the payload to a JSON-safe shape.  Only the
shape of the data line matters to the claims, so the JSON text is built
from the modelled fields in a fixed key order. -/
def payloadJson (p : EncPayload) : String :=
  "\x7b\"type\":\"" ++ p.type ++ "\",\"threadId\":\"" ++ p.threadId ++
    "\",\"threadItemId\":\"" ++ p.threadItemId ++ "\"" ++
    (match p.parentThreadItemId with
     | some pid => ",\"parentThreadItemId\":\"" ++ pid ++ "\""
     | none => "") ++
    (match p.content with
     | some c => ",\"content\":\"" ++ c ++ "\""
     | none => "") ++ "\x7d"

/-- Modelled from the spec: the sanitize-and-encode step of
`sendMessage`, which yields the JSON data line for serializable payloads
and throws otherwise (the `serializable` flag decides which). -/
def serializePayload (p : EncPayload) : Option String :=
  if p.serializable then some (payloadJson p) else none

/-- The literal fallback frame body `sendMessage` builds on a
serialization error: `JSON.stringify` of the object with keys `type`,
`status`, `error` and the three identifiers (an `undefined`
`parentThreadItemId` is dropped, as `JSON.stringify` drops undefined
values). -/
def doneErrorJson (threadId threadItemId : String) (parentThreadItemId : Option String) : String :=
  "\x7b\"type\":\"done\",\"status\":\"error\",\"error\":\"Failed to serialize payload\"," ++
    "\"threadId\":\"" ++ threadId ++ "\",\"threadItemId\":\"" ++ threadItemId ++ "\"" ++
    (match parentThreadItemId with
     | some pid => ",\"parentThreadItemId\":\"" ++ pid ++ "\""
     | none => "") ++ "\x7d"

/-- State of the guarded stream controller: the source's `__closed`
marker, whether the underlying controller still accepts writes, the
chunks enqueued so far (the `TextEncoder` byte encoding is elided), and
the lines logged through `logger.error`. -/
structure StreamSink where
  closedFlag : Bool
  valid : Bool
  chunks : List String
  logs : List String
deriving DecidableEq, Repr

/-- `controller.enqueue`: appends the chunk, or throws the
"invalid state" `TypeError` when the controller is no longer valid. -/
def enqueueChunk (s : StreamSink) (c : String) : Except Unit StreamSink :=
  if s.valid then .ok { s with chunks := s.chunks ++ [c] } else .error ()

/-- `sendMessage` from the completion route: a no-op when `__closed` is
set; otherwise normalizes `content`, serializes, writes the frame
followed by the empty flush chunk, marks `__closed` when `enqueue`
throws the controller-closed `TypeError`, and on a serialization error
logs and degrades to the minimal `done`/`error` frame (whose own
enqueue failure again just marks `__closed`). -/
def sendMessage (s : StreamSink) (p : EncPayload) : StreamSink :=
  if s.closedFlag then s
  else
    let p := normalizeContentField p
    match serializePayload p with
    | some json =>
      let message := "event: " ++ p.type ++ "\ndata: " ++ json ++ "\n\n"
      match enqueueChunk s message with
      | .ok s1 =>
        match enqueueChunk s1 "" with
        | .ok s2 => s2
        | .error _ => { s1 with closedFlag := true }
      | .error _ => { s with closedFlag := true }
    | none =>
      let s0 := { s with logs := s.logs ++ ["Error serializing message payload"] }
      let errorMessage := "event: done\ndata: " ++
        doneErrorJson p.threadId p.threadItemId p.parentThreadItemId ++ "\n\n"
      match enqueueChunk s0 errorMessage with
      | .ok s1 => s1
      | .error _ => { s0 with closedFlag := true }

/-- Helper: content normalization does not touch the serializability
flag. -/
theorem normalizeContentField_serializable (p : EncPayload) :
    (normalizeContentField p).serializable = p.serializable := by
  unfold normalizeContentField
  cases p.content <;> simp
  split <;> rfl

/-- Helper: content normalization does not touch the identifiers. -/
theorem normalizeContentField_ids (p : EncPayload) :
    (normalizeContentField p).threadId = p.threadId ∧
    (normalizeContentField p).threadItemId = p.threadItemId ∧
    (normalizeContentField p).parentThreadItemId = p.parentThreadItemId := by
  unfold normalizeContentField
  cases p.content <;> simp
  split <;> simp

/-- C4: on an open, valid sink a serializable payload produces exactly
one frame — an event-name line, a JSON data line and a blank-line
terminator in one chunk — plus the explicit empty flush chunk; once the
sink is marked closed the call is the identity, and a sink whose
underlying controller has become invalid receives no chunk, is marked
closed, and every subsequent call is a no-op (the function is total, so
no exception escapes). -/
theorem sendMessage_frame_contract (s : StreamSink) (p : EncPayload) :
    (s.closedFlag = true → sendMessage s p = s) ∧
    (s.valid = false → (sendMessage s p).chunks = s.chunks ∧
      (sendMessage s p).closedFlag = true ∧
      ∀ p', sendMessage (sendMessage s p) p' = sendMessage s p) ∧
    (s.closedFlag = false → s.valid = true → p.serializable = true →
      (sendMessage s p).chunks = s.chunks ++
        ["event: " ++ (normalizeContentField p).type ++ "\ndata: " ++
          payloadJson (normalizeContentField p) ++ "\n\n", ""]) := by
  refine ⟨?_, ?_, ?_⟩
  · intro h
    simp [sendMessage, h]
  · intro hv
    cases hc : s.closedFlag with
    | true =>
      refine ⟨by simp [sendMessage, hc], by simp [sendMessage, hc], ?_⟩
      intro p'
      simp [sendMessage, hc]
    | false =>
      have hser := normalizeContentField_serializable p
      cases hs : p.serializable with
      | true =>
        refine ⟨?_, ?_, ?_⟩
        · simp [sendMessage, hc, serializePayload, hser, hs, enqueueChunk, hv]
        · simp [sendMessage, hc, serializePayload, hser, hs, enqueueChunk, hv]
        · intro p'
          simp [sendMessage, hc, serializePayload, hser, hs, enqueueChunk, hv]
      | false =>
        refine ⟨?_, ?_, ?_⟩
        · simp [sendMessage, hc, serializePayload, hser, hs, enqueueChunk, hv]
        · simp [sendMessage, hc, serializePayload, hser, hs, enqueueChunk, hv]
        · intro p'
          simp [sendMessage, hc, serializePayload, hser, hs, enqueueChunk, hv]
  · intro hc hv hs
    have hser := normalizeContentField_serializable p
    simp [sendMessage, hc, serializePayload, hser, hs, enqueueChunk, hv]

/-- Witness for `sendMessage_frame_contract`: a closed sink is left
untouched; an invalid sink gets marked closed without a write; an open
valid sink receives the frame and the flush chunk. -/
theorem sendMessage_frame_contract_witness :
    sendMessage ⟨true, true, [], []⟩
      ⟨"answer", none, "t1", "i1", none, true⟩ = ⟨true, true, [], []⟩ ∧
    (sendMessage ⟨false, false, [], []⟩
      ⟨"answer", none, "t1", "i1", none, true⟩).chunks = [] ∧
    (sendMessage ⟨false, true, [], []⟩
      ⟨"answer", none, "t1", "i1", none, true⟩).chunks =
      ["event: answer\ndata: " ++
        payloadJson (normalizeContentField ⟨"answer", none, "t1", "i1", none, true⟩) ++
        "\n\n", ""] :=
  ⟨(sendMessage_frame_contract ⟨true, true, [], []⟩
      ⟨"answer", none, "t1", "i1", none, true⟩).1 rfl,
   ((sendMessage_frame_contract ⟨false, false, [], []⟩
      ⟨"answer", none, "t1", "i1", none, true⟩).2.1 rfl).1,
   (sendMessage_frame_contract ⟨false, true, [], []⟩
      ⟨"answer", none, "t1", "i1", none, true⟩).2.2 rfl rfl rfl⟩

/-- C5: when sanitizing or serializing the payload fails inside
`sendMessage`, the error is caught (the function returns normally) and
logged, and the minimal terminal frame with event name `done` and
status `error`, carrying the payload's `threadId`, `threadItemId` and
`parentThreadItemId`, is written to the sink instead. -/
theorem sendMessage_serialization_failure (s : StreamSink) (p : EncPayload)
    (hc : s.closedFlag = false) (hv : s.valid = true) (hs : p.serializable = false) :
    (sendMessage s p).chunks = s.chunks ++
      ["event: done\ndata: " ++
        doneErrorJson p.threadId p.threadItemId p.parentThreadItemId ++ "\n\n"] ∧
    (sendMessage s p).logs = s.logs ++ ["Error serializing message payload"] := by
  have hser := normalizeContentField_serializable p
  have hids := normalizeContentField_ids p
  constructor
  · simp [sendMessage, hc, serializePayload, hser, hs, enqueueChunk, hv, hids.1, hids.2.1,
      hids.2.2]
  · simp [sendMessage, hc, serializePayload, hser, hs, enqueueChunk, hv]

/-- Witness for `sendMessage_serialization_failure` at a concrete
payload with a parent id. -/
theorem sendMessage_serialization_failure_witness :
    (sendMessage ⟨false, true, [], []⟩
      ⟨"answer", none, "t1", "i1", some "p1", false⟩).chunks =
      ["event: done\ndata: " ++ doneErrorJson "t1" "i1" (some "p1") ++ "\n\n"] ∧
    (sendMessage ⟨false, true, [], []⟩
      ⟨"answer", none, "t1", "i1", some "p1", false⟩).logs =
      ["Error serializing message payload"] :=
  sendMessage_serialization_failure ⟨false, true, [], []⟩
    ⟨"answer", none, "t1", "i1", some "p1", false⟩ rfl rfl rfl

end LlmChat

namespace LlmChat

/-! ## Persistence throttle of `runAgent`
(`packages/common/hooks/agent-provider.tsx`)

The reader loop of `runAgent` computes, for each parsed event, the flag
`shouldPersistToDB = Date.now() - lastDbUpdate >= DB_UPDATE_INTERVAL`
(with `lastDbUpdate` initialized when the reader is set up and advanced
only when the flag is true) and passes it to `handleThreadItemUpdate`.
Timestamps are modelled as milliseconds since the reader was set up. -/

/-- `DB_UPDATE_INTERVAL` from `runAgent` (1000 ms). -/
def DB_UPDATE_INTERVAL : Nat := 1000

/-- The sequence of `shouldPersistToDB` flags the reader loop computes
for events arriving at the given timestamps. -/
def throttleFlags (lastDbUpdate : Nat) : List Nat → List Bool
  | [] => []
  | t :: ts =>
    let shouldPersist := decide (DB_UPDATE_INTERVAL ≤ t - lastDbUpdate)
    shouldPersist :: throttleFlags (if shouldPersist then t else lastDbUpdate) ts

/-- The persistence flag `handleThreadItemUpdate` actually forwards: it
receives `shouldPersistToDB` but calls
`updateThreadItem(threadId, { ...updatedItem, persistToDB: true })`,
passing the literal `true` for every event. -/
def handleThreadItemUpdatePersistFlag (shouldPersistToDB : Bool) : Bool :=
  let _ := shouldPersistToDB
  true

/-- The per-event persistence decisions that reach the store for a run
whose computed throttle flags are given. -/
def persistedFlags (throttled : List Bool) : List Bool :=
  throttled.map handleThreadItemUpdatePersistFlag

/-- C3: the 1-second persistence throttle is dead code.  For two events
arriving 0 ms and 100 ms after the reader starts, the computed throttle
flags are both `false` (so even the very first event would not be
flushed under the throttle), yet `handleThreadItemUpdate` ignores its
`shouldPersistToDB` argument and forwards `persistToDB: true` for every
event, so both events are sent to durable persistence within the same
1-second interval. -/
theorem persist_throttle_flag_ignored :
    (∀ b, handleThreadItemUpdatePersistFlag b = true) ∧
    throttleFlags 0 [0, 100] = [false, false] ∧
    persistedFlags (throttleFlags 0 [0, 100]) = [true, true] :=
  ⟨fun _ => rfl, by decide, by decide⟩

end LlmChat

namespace LlmChat

/-! ## Conversation store branch bookkeeping
(`packages/common/store/chat.store.ts`)

`pruneBranchSelections` itself is translated from the store source.  Its
collaborators `resolveBranchRootId`, `ensureBranchRootId` and
`buildBranchGroups` live in `packages/common/store/branching-utils.ts`,
which is not among the sources; they are modelled from §4.5 of the spec.
`branchSelections` is a JavaScript object and is embedded as an
association list in insertion order with unique keys; `getSel`/`setSel`
are object read and assignment.  The groups map is represented by the
fiber function `branchGroup` plus its key list `allRoots` (iteration
order of the original `Map` does not matter to the properties proved
here, and the fold iterates each root exactly once, as `forEach` on a
`Map` does). -/

/-- The projection of a stored `ThreadItem` that branch bookkeeping
reads: its id, owning thread, parent back-reference, branch root, and
creation time (milliseconds). -/
structure ThreadItem where
  id : String
  threadId : String
  parentId : Option String
  branchRootId : Option String
  createdAt : Nat
deriving DecidableEq, Repr

/-- Modelled from the spec: `resolveBranchRootId` from
`branching-utils.ts` (not among the sources) — items without an
explicit `branchRootId` default to rooting on their `parentId` (reply
item) or on themselves (root item). -/
def resolveBranchRootId (item : ThreadItem) : String :=
  match item.branchRootId with
  | some r => r
  | none =>
    match item.parentId with
    | some p => p
    | none => item.id

/-- Modelled from the spec: `ensureBranchRootId` from
`branching-utils.ts` (not among the sources) — normalization writing
the resolved root back into the item. -/
def ensureBranchRootId (item : ThreadItem) : ThreadItem :=
  { item with branchRootId := some (resolveBranchRootId item) }

/-- Modelled from the spec: the group of `buildBranchGroups` (from
`branching-utils.ts`, not among the sources) for one root id — all
items resolving to that root, in list order (the store keeps
`threadItems` in creation order). -/
def branchGroup (items : List ThreadItem) (rootId : String) : List ThreadItem :=
  items.filter (fun it => resolveBranchRootId it == rootId)

/-- The key set of the groups map: every root id realized by some
item, each once. -/
def allRoots (items : List ThreadItem) : List String :=
  (items.map resolveBranchRootId).dedup

/-- `group[group.length - 1].id`, the store's fallback selection;
only ever used on non-empty groups. -/
def lastMemberId (group : List ThreadItem) : String :=
  match group.getLast? with
  | some it => it.id
  | none => ""

/-- Object read `branchSelections[rootId]`. -/
def getSel (sels : List (String × String)) (root : String) : Option String :=
  (sels.find? (fun e => e.1 == root)).map Prod.snd

/-- Object assignment `branchSelections[rootId] = v`: updates the
existing key in place or appends a new one (JavaScript object keys are
unique). -/
def setSel : List (String × String) → String → String → List (String × String)
  | [], root, v => [(root, v)]
  | e :: t, root, v => if e.1 == root then (root, v) :: t else e :: setSel t root v

/-- The body of the first loop of `pruneBranchSelections`
(`Object.entries(state.branchSelections).forEach`): a selection whose
id is a live member of its group is kept; otherwise it is repaired to
the group's last member or deleted when the group is empty; the second
`if (!validIds.has(selectedId))` check of the source re-runs the repair
against the original selected id. -/
def pruneEntry (items : List ThreadItem) (entry : String × String) :
    Option (String × String) :=
  let group := branchGroup items entry.1
  let hasSelected := group.any (fun it => it.id == entry.2)
  let afterFirst : Option (String × String) :=
    if hasSelected then some entry
    else if group.isEmpty then none
    else some (entry.1, lastMemberId group)
  if items.any (fun it => it.id == entry.2) then afterFirst
  else if group.isEmpty then none
  else some (entry.1, lastMemberId group)

/-- The body of the closing `groups.forEach((group, rootId) => ...)`
loop of `pruneBranchSelections`: a root whose selection is missing (or
falsy, i.e. the empty string) gets the group's last member. -/
def pruneFoldStep (items : List ThreadItem) (acc : List (String × String))
    (rootId : String) : List (String × String) :=
  let group := branchGroup items rootId
  if group.isEmpty then acc
  else
    match getSel acc rootId with
    | none => setSel acc rootId (lastMemberId group)
    | some s => if s == "" then setSel acc rootId (lastMemberId group) else acc

/-- `pruneBranchSelections` from `chat.store.ts`: normalize the item
list, repair or drop every existing selection entry, then give every
non-empty group a default selection.  (The source also writes the
normalized items back into `state.threadItems`; only the selections are
of interest here.) -/
def pruneBranchSelections (sels : List (String × String)) (rawItems : List ThreadItem) :
    List (String × String) :=
  let items := rawItems.map ensureBranchRootId
  let sels1 := sels.filterMap (pruneEntry items)
  (allRoots items).foldl (pruneFoldStep items) sels1

/-- Helper: normalization is idempotent on the resolved root. -/
theorem resolve_ensure (it : ThreadItem) :
    resolveBranchRootId (ensureBranchRootId it) = resolveBranchRootId it := by
  simp [ensureBranchRootId, resolveBranchRootId]

/-- Helper: the last element of a list is a member. -/
theorem mem_of_getLast? {α : Type} : ∀ {l : List α} {a : α}, l.getLast? = some a → a ∈ l := by
  intro l
  induction l with
  | nil => intro a h; simp [List.getLast?] at h
  | cons x xs ih =>
    intro a h
    cases xs with
    | nil =>
      simp [List.getLast?] at h
      simp [h]
    | cons y ys =>
      rw [List.getLast?_cons_cons] at h
      exact List.mem_cons_of_mem _ (ih h)

/-- Helper: on a non-empty group, `lastMemberId` names a member. -/
theorem lastMemberId_mem {g : List ThreadItem} (hg : g ≠ []) :
    ∃ it ∈ g, it.id = lastMemberId g := by
  obtain ⟨a, ha⟩ := Option.ne_none_iff_exists'.mp (mt List.getLast?_eq_none_iff.mp hg)
  exact ⟨a, mem_of_getLast? ha, by simp [lastMemberId, ha]⟩

/-- Helper: `pruneEntry` never changes an entry's key. -/
theorem pruneEntry_key {items : List ThreadItem} {e e' : String × String}
    (h : pruneEntry items e = some e') : e'.1 = e.1 := by
  unfold pruneEntry at h
  dsimp only at h
  split at h
  · split at h
    · exact (Option.some_inj.mp h) ▸ rfl
    · split at h
      · exact absurd h (by simp)
      · exact (Option.some_inj.mp h) ▸ rfl
  · split at h
    · exact absurd h (by simp)
    · exact (Option.some_inj.mp h) ▸ rfl

/-- Helper: every entry `pruneEntry` keeps names a live member of its
group. -/
theorem pruneEntry_member {items : List ThreadItem} {e e' : String × String}
    (h : pruneEntry items e = some e') :
    ∃ it ∈ branchGroup items e'.1, it.id = e'.2 := by
  have hkey := pruneEntry_key h
  unfold pruneEntry at h
  dsimp only at h
  have hlast : ∀ (_ : ¬(branchGroup items e.1).isEmpty = true),
      ∃ it ∈ branchGroup items e.1, it.id = lastMemberId (branchGroup items e.1) :=
    fun hne => lastMemberId_mem (by simpa [List.isEmpty_iff] using hne)
  split at h
  · split at h
    case isTrue hsel =>
      obtain ⟨it, hmem, hid⟩ := List.any_eq_true.mp hsel
      cases Option.some_inj.mp h
      exact ⟨it, hmem, by simpa using hid⟩
    case isFalse hsel =>
      split at h
      · exact absurd h (by simp)
      case isFalse hne =>
        cases Option.some_inj.mp h
        simpa using hlast hne
  · split at h
    · exact absurd h (by simp)
    case isFalse hne =>
      cases Option.some_inj.mp h
      simpa using hlast hne

end LlmChat

namespace LlmChat

/-- Helper: object read on the empty object. -/
theorem getSel_nil (r : String) : getSel [] r = none := rfl

/-- Helper: one step of object read. -/
theorem getSel_cons (e : String × String) (t : List (String × String)) (r : String) :
    getSel (e :: t) r = if e.1 = r then some e.2 else getSel t r := by
  by_cases he : e.1 = r
  · simp [getSel, List.find?_cons_of_pos, he]
  · simp [getSel, List.find?_cons_of_neg, he]

/-- Helper: a key reads as `none` exactly when it is absent. -/
theorem getSel_eq_none_iff (sels : List (String × String)) (r : String) :
    getSel sels r = none ↔ r ∉ sels.map Prod.fst := by
  induction sels with
  | nil => simp [getSel]
  | cons e t ih =>
    rw [getSel_cons]
    by_cases he : e.1 = r
    · simp [he]
    · have hne : r ≠ e.1 := fun hc => he hc.symm
      simp [he, hne, ih]

/-- Helper: assignment then read of the same key. -/
theorem getSel_setSel_same (sels : List (String × String)) (r v : String) :
    getSel (setSel sels r v) r = some v := by
  induction sels with
  | nil => simp [setSel, getSel_cons]
  | cons e t ih =>
    by_cases he : e.1 = r
    · simp [setSel, he, getSel_cons]
    · have he' : (e.1 == r) = false := by simpa using he
      simp only [setSel, he', Bool.false_eq_true, if_false]
      rw [getSel_cons, if_neg he]
      exact ih

/-- Helper: assignment leaves other keys unchanged. -/
theorem getSel_setSel_other (sels : List (String × String)) (r v r' : String)
    (h : r' ≠ r) : getSel (setSel sels r v) r' = getSel sels r' := by
  induction sels with
  | nil =>
    rw [show setSel [] r v = [(r, v)] from rfl, getSel_cons, if_neg (fun hc => h hc.symm)]
  | cons e t ih =>
    by_cases he : e.1 = r
    · have : (r : String) ≠ r' := fun hc => h hc.symm
      simp only [setSel, he, beq_self_eq_true, if_true]
      rw [getSel_cons, getSel_cons, if_neg this, if_neg (by rw [he]; exact this)]
    · have he' : (e.1 == r) = false := by simpa using he
      simp only [setSel, he', Bool.false_eq_true, if_false]
      rw [getSel_cons, getSel_cons]
      by_cases he2 : e.1 = r'
      · simp [he2]
      · simp [he2, ih]

/-- Helper: entries after an assignment are the assigned pair or old
entries. -/
theorem setSel_mem {sels : List (String × String)} {r v : String} {e' : String × String}
    (h : e' ∈ setSel sels r v) : e' = (r, v) ∨ e' ∈ sels := by
  induction sels with
  | nil => simpa [setSel] using h
  | cons e t ih =>
    by_cases he : e.1 = r
    · simp only [setSel, he, beq_self_eq_true, if_true, List.mem_cons] at h
      rcases h with h | h
      · exact Or.inl h
      · exact Or.inr (List.mem_cons_of_mem _ h)
    · have he' : (e.1 == r) = false := by simpa using he
      simp only [setSel, he', Bool.false_eq_true, if_false, List.mem_cons] at h
      rcases h with h | h
      · exact Or.inr (by simp [h])
      · rcases ih h with h | h
        · exact Or.inl h
        · exact Or.inr (List.mem_cons_of_mem _ h)

/-- Helper: assigning an absent key appends it. -/
theorem setSel_keys_of_none {sels : List (String × String)} {r : String} (v : String)
    (h : getSel sels r = none) :
    (setSel sels r v).map Prod.fst = sels.map Prod.fst ++ [r] := by
  induction sels with
  | nil => simp [setSel]
  | cons e t ih =>
    rw [getSel_cons] at h
    by_cases he : e.1 = r
    · simp [he] at h
    · have he' : (e.1 == r) = false := by simpa using he
      simp only [he, if_false] at h
      simp only [setSel, he', Bool.false_eq_true, if_false, List.map_cons, ih h,
        List.cons_append]

/-- Helper: assigning a present key leaves the key list unchanged. -/
theorem setSel_keys_of_some {sels : List (String × String)} {r s : String} (v : String)
    (h : getSel sels r = some s) :
    (setSel sels r v).map Prod.fst = sels.map Prod.fst := by
  induction sels with
  | nil => simp [getSel] at h
  | cons e t ih =>
    rw [getSel_cons] at h
    by_cases he : e.1 = r
    · simp [setSel, he]
    · have he' : (e.1 == r) = false := by simpa using he
      simp only [he, if_false] at h
      simp only [setSel, he', Bool.false_eq_true, if_false, List.map_cons, ih h]

/-- Helper: assignment preserves key uniqueness. -/
theorem setSel_keys_nodup {sels : List (String × String)} {r : String} (v : String)
    (h : (sels.map Prod.fst).Nodup) : ((setSel sels r v).map Prod.fst).Nodup := by
  cases hg : getSel sels r with
  | none =>
    rw [setSel_keys_of_none v hg]
    have hr : r ∉ sels.map Prod.fst := (getSel_eq_none_iff sels r).mp hg
    refine List.Nodup.append h (List.nodup_singleton r) ?_
    intro a ha hb
    simp only [List.mem_singleton] at hb
    subst hb
    exact hr ha
  | some s =>
    rw [setSel_keys_of_some v hg]
    exact h

/-- Helper: the repair pass only removes keys, never invents them. -/
theorem filterMap_keys_sublist (items : List ThreadItem) (sels : List (String × String)) :
    ((sels.filterMap (pruneEntry items)).map Prod.fst).Sublist (sels.map Prod.fst) := by
  induction sels with
  | nil => simp
  | cons e t ih =>
    cases hp : pruneEntry items e with
    | none =>
      rw [List.filterMap_cons_none hp]
      simp only [List.map_cons]
      exact ih.cons _
    | some e' =>
      rw [List.filterMap_cons_some hp]
      simp only [List.map_cons, pruneEntry_key hp]
      exact ih.cons₂ _

/-- Helper: under unique keys, reading a key after the repair pass is
the repaired read of the key. -/
theorem getSel_filterMap (items : List ThreadItem) (sels : List (String × String)) (r : String)
    (hnd : (sels.map Prod.fst).Nodup) :
    getSel (sels.filterMap (pruneEntry items)) r =
      (getSel sels r).bind (fun s => (pruneEntry items (r, s)).map Prod.snd) := by
  induction sels with
  | nil => simp [getSel]
  | cons e t ih =>
    obtain ⟨a, b⟩ := e
    rw [List.map_cons] at hnd
    have hniet : a ∉ t.map Prod.fst := (List.nodup_cons.mp hnd).1
    have hnd' : (t.map Prod.fst).Nodup := (List.nodup_cons.mp hnd).2
    by_cases he : a = r
    · subst he
      cases hp : pruneEntry items (a, b) with
      | none =>
        rw [List.filterMap_cons_none hp, getSel_cons]
        simp only [if_pos rfl]
        have hnotin : a ∉ (t.filterMap (pruneEntry items)).map Prod.fst :=
          fun hc => hniet ((filterMap_keys_sublist items t).subset hc)
        rw [(getSel_eq_none_iff _ _).mpr hnotin]
        simp [hp]
      | some e' =>
        rw [List.filterMap_cons_some hp, getSel_cons, getSel_cons]
        simp only [if_pos rfl, if_pos (pruneEntry_key hp)]
        simp [hp]
    · cases hp : pruneEntry items (a, b) with
      | none =>
        rw [List.filterMap_cons_none hp, getSel_cons, if_neg he]
        exact ih hnd'
      | some e' =>
        rw [List.filterMap_cons_some hp, getSel_cons, getSel_cons, if_neg he,
          if_neg (by rw [pruneEntry_key hp]; exact he)]
        exact ih hnd'

/-- Helper: in a list sorted by creation time, the last element is the
most recently created. -/
theorem sorted_le_getLast {l : List ThreadItem}
    (hs : l.Pairwise (fun a b => a.createdAt ≤ b.createdAt)) {x : ThreadItem}
    (hx : l.getLast? = some x) : ∀ y ∈ l, y.createdAt ≤ x.createdAt := by
  induction l with
  | nil => simp at hx
  | cons a t ih =>
    cases t with
    | nil =>
      simp [List.getLast?] at hx
      subst hx
      intro y hy
      simp at hy
      subst hy
      exact le_refl _
    | cons b t2 =>
      rw [List.getLast?_cons_cons] at hx
      have hs' := List.pairwise_cons.mp hs
      intro y hy
      rcases List.mem_cons.mp hy with hy | hy
      · subst hy
        exact hs'.1 x (mem_of_getLast? hx)
      · exact ih hs'.2 hx y hy

/-- Helper: branch-group membership. -/
theorem mem_branchGroup_iff {items : List ThreadItem} {r : String} {it : ThreadItem} :
    it ∈ branchGroup items r ↔ it ∈ items ∧ resolveBranchRootId it = r := by
  simp [branchGroup, List.mem_filter]

/-- Helper: groups inherit the creation-time ordering of the item
list. -/
theorem branchGroup_sorted {items : List ThreadItem} (r : String)
    (hs : items.Pairwise (fun a b => a.createdAt ≤ b.createdAt)) :
    (branchGroup items r).Pairwise (fun a b => a.createdAt ≤ b.createdAt) :=
  hs.sublist (List.filter_sublist items)

/-- Helper: a group is non-empty exactly when its root is realized. -/
theorem branchGroup_ne_nil_iff {items : List ThreadItem} {r : String} :
    branchGroup items r ≠ [] ↔ r ∈ allRoots items := by
  rw [allRoots, List.mem_dedup]
  constructor
  · intro h
    rcases List.exists_mem_of_ne_nil _ h with ⟨it, hit⟩
    rcases mem_branchGroup_iff.mp hit with ⟨hmem, hres⟩
    exact List.mem_map.mpr ⟨it, hmem, hres⟩
  · intro h hnil
    rcases List.mem_map.mp h with ⟨it, hmem, hres⟩
    have : it ∈ branchGroup items r := mem_branchGroup_iff.mpr ⟨hmem, hres⟩
    rw [hnil] at this
    simp at this

end LlmChat

namespace LlmChat

/-- Every selection entry names a live member of its key's branch
group. -/
def selectionsLive (items : List ThreadItem) (sels : List (String × String)) : Prop :=
  ∀ e ∈ sels, ∃ it ∈ branchGroup items e.1, it.id = e.2

/-- Helper: the default-selection pass keeps selections live. -/
theorem pruneFoldStep_live {items : List ThreadItem} {acc : List (String × String)}
    (root : String) (h : selectionsLive items acc) :
    selectionsLive items (pruneFoldStep items acc root) := by
  unfold pruneFoldStep
  dsimp only
  split
  · exact h
  case isFalse hne =>
    have hne' : branchGroup items root ≠ [] := by simpa [List.isEmpty_iff] using hne
    have hset : selectionsLive items
        (setSel acc root (lastMemberId (branchGroup items root))) := by
      intro e he
      rcases setSel_mem he with he | he
      · subst he
        exact lastMemberId_mem hne'
      · exact h e he
    cases getSel acc root with
    | none => exact hset
    | some s =>
      dsimp only
      split
      · exact hset
      · exact h

/-- Helper: the default-selection pass keeps keys unique. -/
theorem pruneFoldStep_nodup {items : List ThreadItem} {acc : List (String × String)}
    (root : String) (h : (acc.map Prod.fst).Nodup) :
    ((pruneFoldStep items acc root).map Prod.fst).Nodup := by
  unfold pruneFoldStep
  dsimp only
  split
  · exact h
  · cases getSel acc root with
    | none => exact setSel_keys_nodup _ h
    | some s =>
      dsimp only
      split
      · exact setSel_keys_nodup _ h
      · exact h

/-- Helper: the default-selection pass never drops a key. -/
theorem pruneFoldStep_keys_mono {items : List ThreadItem} {acc : List (String × String)}
    {root r' : String} (h : r' ∈ acc.map Prod.fst) :
    r' ∈ (pruneFoldStep items acc root).map Prod.fst := by
  unfold pruneFoldStep
  dsimp only
  split
  · exact h
  · have hmono : ∀ v, r' ∈ (setSel acc root v).map Prod.fst := by
      intro v
      cases hg : getSel acc root with
      | none => rw [setSel_keys_of_none v hg]; exact List.mem_append_left _ h
      | some s => rw [setSel_keys_of_some v hg]; exact h
    cases getSel acc root with
    | none => exact hmono _
    | some s =>
      dsimp only
      split
      · exact hmono _
      · exact h

/-- Helper: a step for one root does not read or write other keys. -/
theorem pruneFoldStep_getSel_other {items : List ThreadItem} {acc : List (String × String)}
    {root r' : String} (h : r' ≠ root) :
    getSel (pruneFoldStep items acc root) r' = getSel acc r' := by
  unfold pruneFoldStep
  dsimp only
  split
  · rfl
  · cases getSel acc root with
    | none => exact getSel_setSel_other _ _ _ _ h
    | some s =>
      dsimp only
      split
      · exact getSel_setSel_other _ _ _ _ h
      · rfl

/-- Helper: after its own step, a root whose selection was missing or
already the default reads as the default. -/
theorem pruneFoldStep_getSel_self {items : List ThreadItem} {acc : List (String × String)}
    {root : String} (hne : branchGroup items root ≠ [])
    (h : getSel acc root = none ∨
      getSel acc root = some (lastMemberId (branchGroup items root))) :
    getSel (pruneFoldStep items acc root) root =
      some (lastMemberId (branchGroup items root)) := by
  unfold pruneFoldStep
  dsimp only
  rw [if_neg (by simpa [List.isEmpty_iff] using hne)]
  rcases h with h | h
  · rw [h]
    exact getSel_setSel_same _ _ _
  · rw [h]
    dsimp only
    split
    · exact getSel_setSel_same _ _ _
    · exact h

/-- Helper: after its own step, a root with a non-empty group is
present. -/
theorem pruneFoldStep_mem_self {items : List ThreadItem} {acc : List (String × String)}
    {root : String} (hne : branchGroup items root ≠ []) :
    root ∈ (pruneFoldStep items acc root).map Prod.fst := by
  unfold pruneFoldStep
  dsimp only
  rw [if_neg (by simpa [List.isEmpty_iff] using hne)]
  cases hg : getSel acc root with
  | none =>
    rw [setSel_keys_of_none _ hg]
    exact List.mem_append_right _ (by simp)
  | some s =>
    have hmem : root ∈ acc.map Prod.fst := by
      by_contra hc
      rw [(getSel_eq_none_iff _ _).mpr hc] at hg
      exact Option.noConfusion hg
    dsimp only
    split
    · rw [setSel_keys_of_some _ hg]
      exact hmem
    · exact hmem

/-- Helper: liveness is preserved through the whole default pass. -/
theorem foldl_live {items : List ThreadItem} (roots : List String)
    {acc : List (String × String)} (h : selectionsLive items acc) :
    selectionsLive items (roots.foldl (pruneFoldStep items) acc) := by
  induction roots generalizing acc with
  | nil => exact h
  | cons r rs ih => exact ih (pruneFoldStep_live r h)

/-- Helper: key uniqueness is preserved through the whole default
pass. -/
theorem foldl_nodup {items : List ThreadItem} (roots : List String)
    {acc : List (String × String)} (h : (acc.map Prod.fst).Nodup) :
    ((roots.foldl (pruneFoldStep items) acc).map Prod.fst).Nodup := by
  induction roots generalizing acc with
  | nil => exact h
  | cons r rs ih => exact ih (pruneFoldStep_nodup r h)

/-- Helper: keys survive the whole default pass. -/
theorem foldl_keys_mono {items : List ThreadItem} (roots : List String)
    {acc : List (String × String)} {r' : String} (h : r' ∈ acc.map Prod.fst) :
    r' ∈ (roots.foldl (pruneFoldStep items) acc).map Prod.fst := by
  induction roots generalizing acc with
  | nil => exact h
  | cons r rs ih => exact ih (pruneFoldStep_keys_mono h)

/-- Helper: a root not among the iterated ones keeps its reading. -/
theorem foldl_getSel_not_mem {items : List ThreadItem} {roots : List String}
    {acc : List (String × String)} {root : String} (h : root ∉ roots) :
    getSel (roots.foldl (pruneFoldStep items) acc) root = getSel acc root := by
  induction roots generalizing acc with
  | nil => rfl
  | cons r rs ih =>
    have hr : root ≠ r := fun hc => h (hc ▸ List.mem_cons_self r rs)
    have hrs : root ∉ rs := fun hc => h (List.mem_cons_of_mem _ hc)
    rw [List.foldl_cons, ih hrs, pruneFoldStep_getSel_other hr]

/-- Helper: every iterated root with a non-empty group ends up
present. -/
theorem foldl_mem_self {items : List ThreadItem} {roots : List String}
    {acc : List (String × String)} {root : String} (hroot : root ∈ roots)
    (hne : branchGroup items root ≠ []) :
    root ∈ (roots.foldl (pruneFoldStep items) acc).map Prod.fst := by
  induction roots generalizing acc with
  | nil => simp at hroot
  | cons r rs ih =>
    rw [List.foldl_cons]
    rcases List.mem_cons.mp hroot with hroot | hroot
    · subst hroot
      by_cases hrs : root ∈ rs
      · exact ih hrs
      · exact foldl_keys_mono rs (pruneFoldStep_mem_self hne)
    · exact ih hroot

/-- Helper: an iterated root whose selection entered the pass missing
or equal to the default reads as the default afterwards. -/
theorem foldl_getSel_self {items : List ThreadItem} {roots : List String}
    {acc : List (String × String)} {root : String} (hnd : roots.Nodup)
    (hroot : root ∈ roots) (hne : branchGroup items root ≠ [])
    (h : getSel acc root = none ∨
      getSel acc root = some (lastMemberId (branchGroup items root))) :
    getSel (roots.foldl (pruneFoldStep items) acc) root =
      some (lastMemberId (branchGroup items root)) := by
  induction roots generalizing acc with
  | nil => simp at hroot
  | cons r rs ih =>
    rw [List.foldl_cons]
    have hnd' := List.nodup_cons.mp hnd
    rcases List.mem_cons.mp hroot with hroot | hroot
    · subst hroot
      rw [foldl_getSel_not_mem hnd'.1]
      exact pruneFoldStep_getSel_self hne h
    · have hr : root ≠ r := fun hc => hnd'.1 (hc ▸ hroot)
      refine ih hnd'.2 hroot ?_
      rw [pruneFoldStep_getSel_other hr]
      exact h

/-- Helper: a dead selection for a non-empty group is repaired to the
group's last member by the entry pass. -/
theorem pruneEntry_dead {items : List ThreadItem} {root s : String}
    (hne : branchGroup items root ≠ [])
    (hdead : ¬∃ it ∈ branchGroup items root, it.id = s) :
    pruneEntry items (root, s) = some (root, lastMemberId (branchGroup items root)) := by
  unfold pruneEntry
  dsimp only
  have hsel : (branchGroup items root).any (fun it => it.id == s) = false := by
    by_contra hc
    have : (branchGroup items root).any (fun it => it.id == s) = true := by
      cases hx : (branchGroup items root).any (fun it => it.id == s) with
      | true => rfl
      | false => exact absurd hx hc
    rcases List.any_eq_true.mp this with ⟨it, hmem, hid⟩
    exact hdead ⟨it, hmem, by simpa using hid⟩
  have hempty : (branchGroup items root).isEmpty = false := by
    simpa [List.isEmpty_iff] using hne
  rw [hsel, hempty]
  split <;> simp

/-- Helper: normalization preserves creation times. -/
theorem ensure_createdAt (it : ThreadItem) :
    (ensureBranchRootId it).createdAt = it.createdAt := rfl

/-- Helper: a creation-ordered item list stays ordered under
normalization. -/
theorem items_sorted_of_raw {rawItems : List ThreadItem}
    (hsorted : rawItems.Pairwise (fun a b => a.createdAt ≤ b.createdAt)) :
    (rawItems.map ensureBranchRootId).Pairwise (fun a b => a.createdAt ≤ b.createdAt) := by
  rw [List.pairwise_map]
  exact hsorted

/-- C2: given unique selection keys (JavaScript objects guarantee this)
and items listed in creation order, `pruneBranchSelections` establishes:
every key present maps to the id of a live member of that key's branch
group (so keys whose group is empty or absent are removed); keys stay
unique and every branch group with at least one member has exactly one
selection entry (the key-presence iff); and a missing or dead selection
defaults to the group's last member, which is its most-recently-created
member. -/
theorem pruneBranchSelections_invariant (sels : List (String × String))
    (rawItems : List ThreadItem)
    (hkeys : (sels.map Prod.fst).Nodup)
    (hsorted : rawItems.Pairwise (fun a b => a.createdAt ≤ b.createdAt)) :
    (∀ e ∈ pruneBranchSelections sels rawItems,
      ∃ it ∈ branchGroup (rawItems.map ensureBranchRootId) e.1, it.id = e.2) ∧
    ((pruneBranchSelections sels rawItems).map Prod.fst).Nodup ∧
    (∀ root, branchGroup (rawItems.map ensureBranchRootId) root ≠ [] ↔
      root ∈ (pruneBranchSelections sels rawItems).map Prod.fst) ∧
    (∀ root, branchGroup (rawItems.map ensureBranchRootId) root ≠ [] →
      (∀ s, getSel sels root = some s →
        ¬∃ it ∈ branchGroup (rawItems.map ensureBranchRootId) root, it.id = s) →
      getSel (pruneBranchSelections sels rawItems) root =
        some (lastMemberId (branchGroup (rawItems.map ensureBranchRootId) root)) ∧
      ∃ it ∈ branchGroup (rawItems.map ensureBranchRootId) root,
        it.id = lastMemberId (branchGroup (rawItems.map ensureBranchRootId) root) ∧
        ∀ it2 ∈ branchGroup (rawItems.map ensureBranchRootId) root,
          it2.createdAt ≤ it.createdAt) := by
  set items := rawItems.map ensureBranchRootId with hitems
  set sels1 := sels.filterMap (pruneEntry items) with hsels1
  have hresult : pruneBranchSelections sels rawItems =
      (allRoots items).foldl (pruneFoldStep items) sels1 := rfl
  have hlive1 : selectionsLive items sels1 := by
    intro e he
    rcases List.mem_filterMap.mp he with ⟨a, _, hpa⟩
    exact pruneEntry_member hpa
  have hnd1 : (sels1.map Prod.fst).Nodup :=
    (filterMap_keys_sublist items sels).nodup hkeys
  have hliveF : selectionsLive items (pruneBranchSelections sels rawItems) := by
    rw [hresult]
    exact foldl_live _ hlive1
  refine ⟨hliveF, ?_, ?_, ?_⟩
  · rw [hresult]
    exact foldl_nodup _ hnd1
  · intro root
    constructor
    · intro hne
      rw [hresult]
      exact foldl_mem_self (branchGroup_ne_nil_iff.mp hne) hne
    · intro hmem
      rcases List.mem_map.mp hmem with ⟨e, hemem, hkey⟩
      rcases hliveF e hemem with ⟨it, hitmem, _⟩
      intro hc
      rw [hkey] at hitmem
      rw [hc] at hitmem
      simp at hitmem
  · intro root hne hdead
    have hstep1 : getSel sels1 root = none ∨
        getSel sels1 root = some (lastMemberId (branchGroup items root)) := by
      rw [hsels1, getSel_filterMap items sels root hkeys]
      cases hg : getSel sels root with
      | none => exact Or.inl rfl
      | some s =>
        right
        simp only [Option.some_bind]
        rw [pruneEntry_dead hne (hdead s hg)]
        rfl
    constructor
    · rw [hresult]
      exact foldl_getSel_self (List.nodup_dedup _) (branchGroup_ne_nil_iff.mp hne) hne hstep1
    · cases hx : (branchGroup items root).getLast? with
      | none => exact absurd (List.getLast?_eq_none_iff.mp hx) hne
      | some x =>
        refine ⟨x, mem_of_getLast? hx, by simp [lastMemberId, hx], ?_⟩
        intro it2 hit2
        exact sorted_le_getLast (branchGroup_sorted root (items_sorted_of_raw hsorted))
          hx it2 hit2

/-- Two sibling items of one branch group, in creation order. -/
def witnessItems : List ThreadItem :=
  [{ id := "a", threadId := "t", parentId := none, branchRootId := some "r", createdAt := 1 },
   { id := "b", threadId := "t", parentId := none, branchRootId := some "r", createdAt := 2 }]

/-- Witness for `pruneBranchSelections_invariant`: a selection pointing
at a deleted item is repaired to the newest sibling, and keys stay
unique. -/
theorem pruneBranchSelections_invariant_witness :
    getSel (pruneBranchSelections [("r", "dead")] witnessItems) "r" = some "b" ∧
    ((pruneBranchSelections [("r", "dead")] witnessItems).map Prod.fst).Nodup := by
  have h := pruneBranchSelections_invariant [("r", "dead")] witnessItems
    (by decide) (by decide)
  have hdead : ∀ s, getSel [("r", "dead")] "r" = some s →
      ¬∃ it ∈ branchGroup (witnessItems.map ensureBranchRootId) "r", it.id = s := by
    intro s hs
    have hval : getSel [("r", "dead")] "r" = some "dead" := by decide
    rw [hval] at hs
    rw [← Option.some_inj.mp hs]
    decide
  have h4 := h.2.2.2 "r" (by decide) hdead
  have hlast : lastMemberId (branchGroup (witnessItems.map ensureBranchRootId) "r") = "b" := by
    decide
  exact ⟨by rw [h4.1, hlast], h.2.1⟩

end LlmChat
